import Mathlib

set_option maxRecDepth 100000

/-!
Verification of the reliable-transport core in `src/project2/streamer.py`.

The Python module implements a Go-Back-N reliable byte stream over a lossy
datagram socket.  This file gives a shallow embedding of its pure data
operations: the framing codec (`_build_packet`, `_unpack_packet`,
`_verify_hash`, hashing with MD5), the `Streamer` state record, and one-step
versions of `send`, `recv`, the FIN construction in `close`, one `_listener`
iteration and one `_transmit` iteration.  Bytes are modelled as `Nat` values
(< 256 on the wire), byte strings as `List Nat`, Python ints as `Int`, and
code that can raise (`struct.pack` range errors) returns `Option`.
-/

/-! ### Constants (streamer.py lines 18-31) -/

def CHUNK_SIZE : Nat := 1024

def WINDOW_SIZE : Nat := 20

/-- Size of `struct.calcsize(">I2?")`: 4 + 1 + 1. -/
def HEADER_NO_HASH_SIZE : Nat := 6

/-- MD5 digests are 16 bytes. -/
def HASH_SIZE : Nat := 16

def HEADER_SIZE : Nat := HASH_SIZE + HEADER_NO_HASH_SIZE

/-! ### MD5 (the `hashlib.md5` external used by `_calculate_hash`)

A direct executable implementation of RFC 1321 over byte lists, so
digests can be computed inside proofs. -/

/-- Truncate to a 32-bit word. -/
def u32 (n : Nat) : Nat := n % 4294967296

/-- Rotation of a 32-bit word to the left. -/
def rotl (x s : Nat) : Nat := u32 (x <<< s) ||| (x >>> (32 - s))

/-- MD5 per-round additive constants `K[0..63]` (RFC 1321). -/
def mdK : List Nat :=
  [0xd76aa478, 0xe8c7b756, 0x242070db, 0xc1bdceee,
   0xf57c0faf, 0x4787c62a, 0xa8304613, 0xfd469501,
   0x698098d8, 0x8b44f7af, 0xffff5bb1, 0x895cd7be,
   0x6b901122, 0xfd987193, 0xa679438e, 0x49b40821,
   0xf61e2562, 0xc040b340, 0x265e5a51, 0xe9b6c7aa,
   0xd62f105d, 0x02441453, 0xd8a1e681, 0xe7d3fbc8,
   0x21e1cde6, 0xc33707d6, 0xf4d50d87, 0x455a14ed,
   0xa9e3e905, 0xfcefa3f8, 0x676f02d9, 0x8d2a4c8a,
   0xfffa3942, 0x8771f681, 0x6d9d6122, 0xfde5380c,
   0xa4beea44, 0x4bdecfa9, 0xf6bb4b60, 0xbebfbc70,
   0x289b7ec6, 0xeaa127fa, 0xd4ef3085, 0x04881d05,
   0xd9d4d039, 0xe6db99e5, 0x1fa27cf8, 0xc4ac5665,
   0xf4292244, 0x432aff97, 0xab9423a7, 0xfc93a039,
   0x655b59c3, 0x8f0ccc92, 0xffeff47d, 0x85845dd1,
   0x6fa87e4f, 0xfe2ce6e0, 0xa3014314, 0x4e0811a1,
   0xf7537e82, 0xbd3af235, 0x2ad7d2bb, 0xeb86d391]

/-- MD5 per-round shift amounts `s[0..63]` (RFC 1321). -/
def mdS : List Nat :=
  [7, 12, 17, 22, 7, 12, 17, 22, 7, 12, 17, 22, 7, 12, 17, 22,
   5, 9, 14, 20, 5, 9, 14, 20, 5, 9, 14, 20, 5, 9, 14, 20,
   4, 11, 16, 23, 4, 11, 16, 23, 4, 11, 16, 23, 4, 11, 16, 23,
   6, 10, 15, 21, 6, 10, 15, 21, 6, 10, 15, 21, 6, 10, 15, 21]

/-- Group bytes 4 at a time into little-endian 32-bit words. -/
def bytesToWordsLE : List Nat → List Nat
  | b0 :: b1 :: b2 :: b3 :: rest =>
      (b0 + b1 * 256 + b2 * 65536 + b3 * 16777216) :: bytesToWordsLE rest
  | _ => []

/-- Serialize a 32-bit word as 4 little-endian bytes. -/
def wordToLEBytes (w : Nat) : List Nat :=
  [w % 256, (w >>> 8) % 256, (w >>> 16) % 256, (w >>> 24) % 256]

/-- MD5 padding: append `0x80`, zero bytes up to 56 mod 64, then the
64-bit little-endian bit length of the original message. -/
def md5Pad (msg : List Nat) : List Nat :=
  let len := msg.length
  let padLen := (119 - len % 64) % 64
  let bitLenBytes := (List.range 8).map (fun i => ((len * 8) >>> (8 * i)) % 256)
  msg ++ [128] ++ List.replicate padLen 0 ++ bitLenBytes

/-- Split a list into consecutive blocks of `n` elements (fuel-based so the
kernel can evaluate it; the fuel is an upper bound on the list length). -/
def chunkListF : Nat → Nat → List Nat → List (List Nat)
  | 0, _, _ => []
  | _ + 1, _, [] => []
  | fuel + 1, n, l => l.take n :: chunkListF fuel n (l.drop n)

/-- Split a list into consecutive blocks of `n` elements (the slices
`data[i : i + n]` for `i in range(0, len(data), n)`). -/
def chunkList (n : Nat) (l : List Nat) : List (List Nat) :=
  chunkListF l.length n l

/-- One MD5 round: `st` is `(A, B, C, D)`, `M` the 16 message words,
`i` the round index. -/
def md5Round (M : List Nat) (st : Nat × Nat × Nat × Nat) (i : Nat) :
    Nat × Nat × Nat × Nat :=
  let (A, B, C, D) := st
  let mask := 4294967295
  let Fg : Nat × Nat :=
    if i < 16 then ((B &&& C) ||| ((B ^^^ mask) &&& D), i)
    else if i < 32 then ((D &&& B) ||| ((D ^^^ mask) &&& C), (5 * i + 1) % 16)
    else if i < 48 then (B ^^^ C ^^^ D, (3 * i + 5) % 16)
    else (C ^^^ (B ||| (D ^^^ mask)), (7 * i) % 16)
  let F2 := u32 (Fg.1 + A + mdK.getD i 0 + M.getD Fg.2 0)
  (D, u32 (B + rotl F2 (mdS.getD i 0)), B, C)

/-- Process one 64-byte block. -/
def md5Chunk (st : Nat × Nat × Nat × Nat) (chunk : List Nat) :
    Nat × Nat × Nat × Nat :=
  let M := bytesToWordsLE chunk
  let r := (List.range 64).foldl (md5Round M) st
  (u32 (st.1 + r.1), u32 (st.2.1 + r.2.1), u32 (st.2.2.1 + r.2.2.1),
   u32 (st.2.2.2 + r.2.2.2))

/-- MD5 digest of a byte list: 16 bytes. -/
def md5 (msg : List Nat) : List Nat :=
  let padded := md5Pad msg
  let r := (chunkList 64 padded).foldl md5Chunk
    (0x67452301, 0xefcdab89, 0x98badcfe, 0x10325476)
  wordToLEBytes r.1 ++ wordToLEBytes r.2.1 ++ wordToLEBytes r.2.2.1 ++
    wordToLEBytes r.2.2.2


/-! ### Framing codec (`_build_packet`, `_unpack_packet`, `_verify_hash`) -/

/-- Packing of a Python bool with format `?`: one byte, 0 or 1. -/
def boolByte (b : Bool) : Nat := if b then 1 else 0

/-- Packing with `struct.pack(">I", n)`: 4 big-endian bytes; raises (`none`) unless
`0 ≤ n < 2^32`. -/
def packUInt32BE (n : Int) : Option (List Nat) :=
  if 0 ≤ n ∧ n < 4294967296 then
    some [(n.toNat >>> 24) % 256, (n.toNat >>> 16) % 256,
          (n.toNat >>> 8) % 256, n.toNat % 256]
  else none

/-- Model of `Streamer._calculate_hash`: MD5 digest of the bytes. -/
def calculate_hash (data : List Nat) : List Nat := md5 data

/-- Model of `Streamer._verify_hash`: compare computed digest to the expected one. -/
def verify_hash (data expected : List Nat) : Bool :=
  calculate_hash data == expected

/-- Model of `Streamer._build_packet(seq_num, is_ack, is_fin, data)`:
`struct.pack(">I2?", seq_num, is_ack, is_fin) + data`, with the MD5 digest
of that prepended.  `none` models the `struct.error` raised when `seq_num`
is out of the unsigned 32-bit range. -/
def build_packet (seq_num : Int) (is_ack is_fin : Bool)
    (data : List Nat := []) : Option (List Nat) :=
  match packUInt32BE seq_num with
  | none => none
  | some sb =>
      let header_no_hash := sb ++ [boolByte is_ack, boolByte is_fin]
      let packet_no_hash := header_no_hash ++ data
      some (calculate_hash packet_no_hash ++ packet_no_hash)

/-- Model of `Streamer._unpack_packet(packet)`: split the 6-byte header
(`struct.unpack(">I2?", ...)`) from the payload.  `none` models the
`struct.error` raised when fewer than 6 bytes are available. -/
def unpack_packet (packet : List Nat) :
    Option (Int × Bool × Bool × List Nat) :=
  match packet with
  | b0 :: b1 :: b2 :: b3 :: a :: f :: data =>
      some (((b0 <<< 24) + (b1 <<< 16) + (b2 <<< 8) + b3 : Nat),
            a != 0, f != 0, data)
  | _ => none

/-- The framing steps of one `_listener` iteration (lines 188-193): split
off the leading 16-byte digest, verify it against the remainder, then
unpack; `none` when the digest mismatches or the header is too short. -/
def parse_packet (packet : List Nat) :
    Option (Int × Bool × Bool × List Nat) :=
  let expected_hash := packet.take HASH_SIZE
  let packet_no_hash := packet.drop HASH_SIZE
  if verify_hash packet_no_hash expected_hash then
    unpack_packet packet_no_hash
  else none

/-! ### The `Streamer` state

Runtime-only fields (socket, locks, thread pools, destination address) are
omitted; everything the claims touch is here, initialized as in
`__init__`. -/

structure Streamer where
  chunk_buffer : List (Int × List Nat)
  send_queue : List (Int × List Nat)
  next_send_seq : Int
  max_acked_seq : Int
  received_packets : List (Int × List Nat)
  last_inorder_received_seq : Int
  fin_acked : Bool
  closed : Bool
deriving DecidableEq

/-- The state set up by `Streamer.__init__`. -/
def initStreamer : Streamer :=
  { chunk_buffer := []
    send_queue := []
    next_send_seq := 0
    max_acked_seq := -1
    received_packets := []
    last_inorder_received_seq := -1
    fin_acked := false
    closed := false }

/-- Lookup in the `received_packets` dict. -/
def lookupDict (d : List (Int × List Nat)) (k : Int) : Option (List Nat) :=
  match d with
  | [] => none
  | (k', v) :: rest => if k' = k then some v else lookupDict rest k

/-- Model of `dict.pop(k)`: remove the binding for `k`. -/
def eraseDict (d : List (Int × List Nat)) (k : Int) :
    List (Int × List Nat) :=
  d.filter (fun e => e.1 != k)

/-! ### `send` (lines 79-94) -/

/-- The loop body of `send`, run once per chunk: build a DATA packet
with `next_send_seq`, append `(next_send_seq, packet)` to `chunk_buffer`,
increment `next_send_seq`.  A `struct.error` from `_build_packet`
propagates to the caller (`none`). -/
def sendChunks (st : Streamer) : List (List Nat) → Option Streamer
  | [] => some st
  | chunk :: rest =>
      match build_packet st.next_send_seq false false chunk with
      | none => none
      | some packet =>
          sendChunks
            { st with
              chunk_buffer := st.chunk_buffer ++ [(st.next_send_seq, packet)]
              next_send_seq := st.next_send_seq + 1 } rest

/-- Model of `Streamer.send(data_bytes)`: iterate over the `CHUNK_SIZE`-wide slices
`data_bytes[i : i + CHUNK_SIZE]`. -/
def send (st : Streamer) (data_bytes : List Nat) : Option Streamer :=
  sendChunks st (chunkList CHUNK_SIZE data_bytes)

/-! ### `recv` (lines 96-113) -/

/-- One successful pass of the polling loop in `recv`: when the packet with
sequence number `last_inorder_received_seq + 1` is available, increment
the cursor, pop that payload and return it; `none` when `recv` would keep
blocking. -/
def recvStep (st : Streamer) : Option (Streamer × List Nat) :=
  match lookupDict st.received_packets (st.last_inorder_received_seq + 1) with
  | some packet_data =>
      some ({ st with
              last_inorder_received_seq := st.last_inorder_received_seq + 1
              received_packets :=
                eraseDict st.received_packets
                  (st.last_inorder_received_seq + 1) },
            packet_data)
  | none => none

/-- Iterated `recv`: `n` consecutive calls, concatenating the returned payloads. -/
def recvN : Nat → Streamer → Option (Streamer × List Nat)
  | 0, st => some (st, [])
  | n + 1, st =>
      match recvStep st with
      | none => none
      | some (st1, d) =>
          match recvN n st1 with
          | none => none
          | some (st2, acc) => some (st2, d ++ acc)

/-! ### The FIN construction in `close` (line 127) -/

/-- The FIN packet `close()` builds:
`_build_packet(self.last_inorder_received_seq, False, True)`. -/
def closeFinPacket (st : Streamer) : Option (List Nat) :=
  build_packet st.last_inorder_received_seq false true

/-! ### One `_listener` iteration (lines 183-230) -/

/-- One iteration of the `_listener` loop on an incoming datagram.
Returns the updated state and the list of packets sent in reply.  Any
exception inside the `try` block (hash mismatch `continue`, a too-short
header, or a `struct.error` from `_build_packet`) is caught by the
`except` clause, leaving whatever state had been updated and sending
nothing further. -/
def listenerStep (st : Streamer) (packet : List Nat) :
    Streamer × List (List Nat) :=
  let expected_hash := packet.take HASH_SIZE
  let packet_no_hash := packet.drop HASH_SIZE
  if verify_hash packet_no_hash expected_hash then
    match unpack_packet packet_no_hash with
    | none => (st, [])
    | some (seq_num, is_ack, is_fin, data) =>
      if is_ack && is_fin then
        ({ st with fin_acked := true }, [])
      else if is_ack then
        ({ st with max_acked_seq := max st.max_acked_seq seq_num }, [])
      else if is_fin then
        match build_packet st.next_send_seq true true with
        | some fin_ack => (st, [fin_ack])
        | none => (st, [])
      else
        let st1 :=
          if (lookupDict st.received_packets seq_num).isSome then st
          else { st with
                 received_packets := st.received_packets ++ [(seq_num, data)] }
        match build_packet st1.last_inorder_received_seq true false with
        | some ack => (st1, [ack])
        | none => (st1, [])
  else (st, [])

/-! ### One `_transmit` iteration (lines 148-168) -/

/-- Model of `bisect.bisect_right(a, t, key=lambda x: x[0])`: binary search for the
insertion point of `t` among the keys, keeping `t` before strictly larger
keys.  Fuel-based (any fuel ≥ `hi - lo` gives the search's answer). -/
def bisectRightAux : Nat → List (Int × List Nat) → Int → Nat → Nat → Nat
  | 0, _, _, lo, _ => lo
  | fuel + 1, a, t, lo, hi =>
      if lo < hi then
        let mid := (lo + hi) / 2
        if t < (a.getD mid (0, [])).1 then bisectRightAux fuel a t lo mid
        else bisectRightAux fuel a t (mid + 1) hi
      else lo

/-- The `bisect_right` call over the whole list. -/
def bisectRight (a : List (Int × List Nat)) (t : Int) : Nat :=
  bisectRightAux (a.length + 1) a t 0 a.length

/-- The refill loop: `while len(send_queue) < WINDOW_SIZE and chunk_buffer:
send_queue.append(chunk_buffer.popleft())`. -/
def refill : List (Int × List Nat) → List (Int × List Nat) →
    List (Int × List Nat) × List (Int × List Nat)
  | q, [] => (q, [])
  | q, x :: xs =>
      if q.length < WINDOW_SIZE then refill (q ++ [x]) xs else (q, x :: xs)

/-- One iteration of the `_transmit` loop: drop acked packets (everything
up to `bisect_right(send_queue, max_acked_seq, key=fst)`), refill the
queue from `chunk_buffer` up to `WINDOW_SIZE`, then transmit every packet
in the queue.  Returns the updated state and the transmitted packets in
order. -/
def transmitStep (st : Streamer) : Streamer × List (List Nat) :=
  let first_unacked_idx := bisectRight st.send_queue st.max_acked_seq
  let q1 := st.send_queue.drop first_unacked_idx
  let r := refill q1 st.chunk_buffer
  ({ st with send_queue := r.1, chunk_buffer := r.2 }, r.1.map Prod.snd)

/-! ### Specification-side description of the queueing done by `send`

The definition `sendSpecQueue` renders the specification text for `submit`: consecutive
monotonically increasing sequence numbers from a starting value, one
DATA packet per chunk, appended in order.  `send` is proved to refine
it. -/

/-- Entries the spec says `submit` appends: chunk `i` is queued under
sequence number `start + i` with its built DATA packet. -/
def sendSpecQueue (start : Int) : List (List Nat) → List (Int × List Nat)
  | [] => []
  | c :: cs =>
      (start, (build_packet start false false c).getD []) ::
        sendSpecQueue (start + 1) cs

/-! ### Helper lemmas -/

/-- An MD5 digest is 16 bytes long. -/
lemma md5_length (msg : List Nat) : (md5 msg).length = 16 := by
  simp [md5, wordToLEBytes]

/-- Successful `_build_packet`, with the packet exposed. -/
lemma build_packet_eq (seq : Int) (a f : Bool) (data : List Nat)
    (h0 : 0 ≤ seq) (h1 : seq < 4294967296) :
    build_packet seq a f data =
      some (md5 ((seq.toNat >>> 24) % 256 :: (seq.toNat >>> 16) % 256 ::
              (seq.toNat >>> 8) % 256 :: seq.toNat % 256 ::
              boolByte a :: boolByte f :: data) ++
            ((seq.toNat >>> 24) % 256 :: (seq.toNat >>> 16) % 256 ::
              (seq.toNat >>> 8) % 256 :: seq.toNat % 256 ::
              boolByte a :: boolByte f :: data)) := by
  simp [build_packet, packUInt32BE, h0, h1, calculate_hash]

/-- Big-endian byte decomposition recomposes for values below `2^32`. -/
lemma be_bytes_recompose (n : Nat) (h : n < 4294967296) :
    (((n >>> 24) % 256) <<< 24) + (((n >>> 16) % 256) <<< 16) +
      (((n >>> 8) % 256) <<< 8) + n % 256 = n := by
  simp only [Nat.shiftLeft_eq, Nat.shiftRight_eq_div_pow]
  omega

/-- The flag byte decodes back to the flag. -/
lemma boolByte_bne (b : Bool) : (boolByte b != 0) = b := by
  cases b <;> rfl

/-- A successful `_build_packet` had its argument in unsigned 32-bit
range. -/
lemma build_packet_some_range {seq : Int} {a f : Bool} {data pkt : List Nat}
    (h : build_packet seq a f data = some pkt) :
    0 ≤ seq ∧ seq < 4294967296 := by
  by_contra hc
  unfold build_packet packUInt32BE at h
  rw [if_neg hc] at h
  cases h

/-- Parsing a successfully built packet returns the build inputs. -/
lemma parse_build_packet (seq : Int) (a f : Bool) (data pkt : List Nat)
    (hpkt : build_packet seq a f data = some pkt) :
    parse_packet pkt = some (seq, a, f, data) := by
  obtain ⟨h0, h1⟩ := build_packet_some_range hpkt
  rw [build_packet_eq seq a f data h0 h1] at hpkt
  obtain rfl := Option.some_injective _ hpkt
  have hlen := md5_length ((seq.toNat >>> 24) % 256 ::
    (seq.toNat >>> 16) % 256 :: (seq.toNat >>> 8) % 256 :: seq.toNat % 256 ::
    boolByte a :: boolByte f :: data)
  have htake : ∀ (l r : List Nat), l.length = 16 → (l ++ r).take 16 = l := by
    intro l r hl
    rw [← hl, List.take_left]
  have hdrop : ∀ (l r : List Nat), l.length = 16 → (l ++ r).drop 16 = r := by
    intro l r hl
    rw [← hl, List.drop_left]
  simp only [parse_packet, HASH_SIZE, htake _ _ hlen, hdrop _ _ hlen,
    verify_hash, calculate_hash, beq_self_eq_true, if_true, unpack_packet,
    boolByte_bne]
  have hrec := be_bytes_recompose seq.toNat (by omega)
  rw [hrec]
  simp [Int.toNat_of_nonneg h0]

/-- Digest-mismatching input makes `_verify_hash` return `False`. -/
lemma verify_hash_false {x : List Nat}
    (h : x.take HASH_SIZE ≠ md5 (x.drop HASH_SIZE)) :
    verify_hash (x.drop HASH_SIZE) (x.take HASH_SIZE) = false := by
  simp only [verify_hash, calculate_hash, beq_eq_false_iff_ne]
  exact fun hh => h hh.symm

/-- One `_listener` iteration on a packet that parses, written as the
dispatch on the decoded flags. -/
lemma listenerStep_valid (st : Streamer) (pkt : List Nat) (seq : Int)
    (a f : Bool) (data : List Nat)
    (hp : parse_packet pkt = some (seq, a, f, data)) :
    listenerStep st pkt =
      if a && f then ({ st with fin_acked := true }, [])
      else if a then
        ({ st with max_acked_seq := max st.max_acked_seq seq }, [])
      else if f then
        match build_packet st.next_send_seq true true with
        | some fin_ack => (st, [fin_ack])
        | none => (st, [])
      else
        let st1 :=
          if (lookupDict st.received_packets seq).isSome then st
          else { st with
                 received_packets := st.received_packets ++ [(seq, data)] }
        match build_packet st1.last_inorder_received_seq true false with
        | some ack => (st1, [ack])
        | none => (st1, []) := by
  unfold parse_packet at hp
  by_cases hv : verify_hash (pkt.drop HASH_SIZE) (pkt.take HASH_SIZE)
  · rw [if_pos hv] at hp
    unfold listenerStep
    rw [if_pos hv, hp]
  · rw [if_neg hv] at hp
    cases hp

/-! ### C1: round-trip framing -/

/-- C1.  Round-trip framing: for any sequence number `0 ≤ s < 2^32`, flags
and payload, parsing the built packet (split off the 16-byte digest,
verify it as the MD5 of the remainder, unpack) succeeds and returns
exactly the inputs; and any byte string whose leading 16 bytes are not
the MD5 of the rest is rejected. -/
theorem c1_round_trip_framing (s : Int) (a f : Bool) (p : List Nat)
    (h0 : 0 ≤ s) (h1 : s < 4294967296) :
    Option.bind (build_packet s a f p) parse_packet = some (s, a, f, p) ∧
    ∀ x : List Nat, x.take HASH_SIZE ≠ md5 (x.drop HASH_SIZE) →
      parse_packet x = none := by
  constructor
  · obtain ⟨pkt, hpkt⟩ : ∃ pkt, build_packet s a f p = some pkt :=
      ⟨_, build_packet_eq s a f p h0 h1⟩
    rw [hpkt]
    exact parse_build_packet s a f p pkt hpkt
  · intro x hx
    simp [parse_packet, verify_hash_false hx]

/-- C1 witness: a concrete round trip and a concrete rejection. -/
theorem c1_round_trip_framing_witness :
    (0 : Int) ≤ 7 ∧ (7 : Int) < 4294967296 ∧
    Option.bind (build_packet 7 true false [104, 105]) parse_packet =
      some (7, true, false, [104, 105]) ∧
    parse_packet (List.replicate 22 0) = none := by
  refine ⟨by decide, by decide, ?_, ?_⟩
  · exact (c1_round_trip_framing 7 true false [104, 105] (by decide)
      (by decide)).1
  · exact (c1_round_trip_framing 7 true false [104, 105] (by decide)
      (by decide)).2 (List.replicate 22 0) (by decide)

/-! ### C8: corrupt datagrams are silent drops -/

/-- C8.  A datagram whose leading 16 bytes differ from the MD5 of its
remainder leaves the whole state unchanged and transmits nothing. -/
theorem c8_corrupt_silent_drop (st : Streamer) (x : List Nat)
    (h : x.take HASH_SIZE ≠ md5 (x.drop HASH_SIZE)) :
    listenerStep st x = (st, []) := by
  simp [listenerStep, verify_hash_false h]

/-- C8 witness: a concrete corrupt datagram is dropped silently. -/
theorem c8_corrupt_silent_drop_witness :
    (List.replicate 22 0).take HASH_SIZE ≠
      md5 ((List.replicate 22 0).drop HASH_SIZE) ∧
    listenerStep initStreamer (List.replicate 22 0) = (initStreamer, []) :=
  ⟨by decide, c8_corrupt_silent_drop initStreamer (List.replicate 22 0)
    (by decide)⟩

/-! ### C9: `_build_packet` length and range behaviour -/

/-- C9.  `_build_packet` yields a packet of length exactly
`22 + len(data)` precisely when `0 ≤ seq_num < 2^32` and raises
(`none`) otherwise; in particular `seq_num = -1` raises, so the FIN
`close()` would build on a fresh transport (where
`last_inorder_received_seq = -1`) fails to build. -/
theorem c9_build_packet_range (seq_num : Int) (is_ack is_fin : Bool)
    (data : List Nat) :
    (build_packet seq_num is_ack is_fin data).map List.length =
      (if 0 ≤ seq_num ∧ seq_num < 4294967296 then some (22 + data.length)
       else none) ∧
    build_packet (-1) is_ack is_fin data = none ∧
    closeFinPacket initStreamer = none := by
  refine ⟨?_, by simp [build_packet, packUInt32BE], by decide⟩
  by_cases h : 0 ≤ seq_num ∧ seq_num < 4294967296
  · rw [build_packet_eq seq_num is_ack is_fin data h.1 h.2, if_pos h]
    simp [md5_length, Nat.add_comm]
    omega
  · rw [if_neg h]
    simp only [build_packet, packUInt32BE, if_neg h]
    rfl

/-! ### C2: the read contract -/

/-- Removing one key from the dict leaves lookups of other keys
unchanged. -/
lemma lookupDict_eraseDict_ne (d : List (Int × List Nat)) (k k' : Int)
    (h : k ≠ k') : lookupDict (eraseDict d k) k' = lookupDict d k' := by
  induction d with
  | nil => rfl
  | cons e rest ih =>
      obtain ⟨ek, ev⟩ := e
      by_cases he : ek = k
      · subst he
        have h1 : eraseDict ((ek, ev) :: rest) ek = eraseDict rest ek := by
          simp [eraseDict, List.filter_cons]
        rw [h1, ih]
        have hk' : ¬ ek = k' := h
        simp [lookupDict, hk']
      · have h1 : eraseDict ((ek, ev) :: rest) k =
            (ek, ev) :: eraseDict rest k := by
          simp [eraseDict, List.filter_cons, he]
        rw [h1]
        show (if ek = k' then some ev else lookupDict (eraseDict rest k) k')
          = (if ek = k' then some ev else lookupDict rest k')
        rw [ih]

/-- A receiver state with two contiguous undelivered payloads. -/
def c2State : Streamer :=
  { initStreamer with received_packets := [(0, [97]), (1, [98])] }

/-- C2 counterexample: with payloads queued for sequence numbers 0 and 1
and the read cursor at -1, a single `recv()` call returns only the first
payload and advances the cursor by one, not the concatenation of both
contiguous payloads with the cursor advanced past them as the claim
states. -/
theorem c2_counterexample :
    (recvStep c2State).map
        (fun r => (r.1.last_inorder_received_seq, r.2)) =
      some (0, [97]) ∧
    some ((0 : Int), [97]) ≠ some ((1 : Int), [97, 98]) := by decide

/-- C2 amended.  Each `recv()` call returns exactly one payload — the one
at sequence number `last_inorder_received_seq + 1` — and advances the
cursor by one; the concatenation of all `k` contiguous payloads is
obtained by `k` consecutive `recv()` calls. -/
theorem c2_amended_read_contract (k : Nat) (st : Streamer)
    (ps : List (List Nat)) (hlen : ps.length = k)
    (h : ∀ i (_ : i < k),
      lookupDict st.received_packets
          (st.last_inorder_received_seq + 1 + i) =
        some (ps.getD i [])) :
    ∃ st', recvN k st = some (st', ps.flatten) ∧
      st'.last_inorder_received_seq = st.last_inorder_received_seq + k := by
  induction k generalizing st ps with
  | zero =>
      obtain rfl : ps = [] := List.length_eq_zero.mp hlen
      exact ⟨st, rfl, by simp⟩
  | succ n ih =>
      cases ps with
      | nil => cases hlen
      | cons p ps' =>
          have h0 := h 0 (Nat.succ_pos n)
          simp only [Nat.cast_zero, add_zero, List.getD_cons_zero] at h0
          have hstep : recvStep st =
              some ({ st with
                      last_inorder_received_seq :=
                        st.last_inorder_received_seq + 1
                      received_packets :=
                        eraseDict st.received_packets
                          (st.last_inorder_received_seq + 1) }, p) := by
            simp [recvStep, h0]
          have hrest : ∀ i (_ : i < n),
              lookupDict
                  (Streamer.received_packets
                    { st with
                      last_inorder_received_seq :=
                        st.last_inorder_received_seq + 1
                      received_packets :=
                        eraseDict st.received_packets
                          (st.last_inorder_received_seq + 1) })
                  (Streamer.last_inorder_received_seq
                    { st with
                      last_inorder_received_seq :=
                        st.last_inorder_received_seq + 1
                      received_packets :=
                        eraseDict st.received_packets
                          (st.last_inorder_received_seq + 1) } + 1 + i) =
                some (ps'.getD i []) := by
            intro i hi
            show lookupDict
                (eraseDict st.received_packets
                  (st.last_inorder_received_seq + 1))
                (st.last_inorder_received_seq + 1 + 1 + i) =
              some (ps'.getD i [])
            rw [lookupDict_eraseDict_ne _ _ _ (by omega)]
            have hh := h (i + 1) (by omega)
            have harg : st.last_inorder_received_seq + 1 + 1 + (i : Int) =
                st.last_inorder_received_seq + 1 + ((i : Nat) + 1 : Nat) := by
              push_cast
              ring
            rw [harg]
            simpa using hh
          obtain ⟨st', hst', hcur⟩ := ih _ ps' (by simpa using hlen) hrest
          refine ⟨st', ?_, ?_⟩
          · simp only [recvN, hstep, hst', List.flatten_cons]
          · rw [hcur]
            show st.last_inorder_received_seq + 1 + (n : Int) =
              st.last_inorder_received_seq + ((n : Nat) + 1 : Nat)
            push_cast
            ring

/-- C2 witness: two queued contiguous payloads are delivered, in order,
by two `recv()` calls. -/
theorem c2_amended_read_contract_witness :
    ∃ st', recvN 2 c2State = some (st', [97, 98]) ∧
      st'.last_inorder_received_seq =
        c2State.last_inorder_received_seq + 2 := by
  have h := c2_amended_read_contract 2 c2State [[97], [98]] (by decide)
    (by decide)
  simpa using h

/-! ### C3: the ACK policy -/

/-- A valid DATA packet with sequence number 5 and payload `[100]`. -/
def pktData5 : List Nat := (build_packet 5 false false [100]).getD []

/-- C3 counterexample: a valid DATA packet arriving on a fresh transport
(`last_inorder_received_seq = -1`, nothing received in order yet) elicits
no ACK at all — `_build_packet(-1, True, False)` raises and the exception
is swallowed — contradicting the claim that exactly one ACK is emitted
with -1 encoded as a sentinel. -/
theorem c3_counterexample :
    parse_packet pktData5 = some (5, false, false, [100]) ∧
    initStreamer.last_inorder_received_seq = -1 ∧
    (listenerStep initStreamer pktData5).2 = [] ∧
    (listenerStep initStreamer pktData5).2.length ≠ 1 := by decide

/-- C3 amended.  Every valid DATA packet (accepted or discarded) elicits
exactly one cumulative ACK carrying `last_inorder_received_seq` — but
only when that value is a valid sequence number (`≥ 0`); when it is still
-1 (nothing received in order yet) building the ACK raises, the listener
swallows the exception, and no ACK is emitted. -/
theorem c3_amended_ack_policy (st : Streamer) (seq : Int)
    (data pkt : List Nat)
    (hpkt : build_packet seq false false data = some pkt) :
    (0 ≤ st.last_inorder_received_seq →
      st.last_inorder_received_seq < 4294967296 →
      ∃ ackPkt, build_packet st.last_inorder_received_seq true false =
          some ackPkt ∧
        (listenerStep st pkt).2 = [ackPkt] ∧
        parse_packet ackPkt =
          some (st.last_inorder_received_seq, true, false, [])) ∧
    (st.last_inorder_received_seq = -1 → (listenerStep st pkt).2 = []) := by
  have hp := parse_build_packet _ _ _ _ _ hpkt
  rw [listenerStep_valid st pkt seq false false data hp]
  constructor
  · intro h0 h1
    obtain ⟨ackPkt, hack⟩ :
        ∃ ackPkt, build_packet st.last_inorder_received_seq true false =
          some ackPkt :=
      ⟨_, build_packet_eq _ _ _ _ h0 h1⟩
    refine ⟨ackPkt, hack, ?_, parse_build_packet _ _ _ _ _ hack⟩
    by_cases hmem : (lookupDict st.received_packets seq).isSome <;>
      simp [hmem, hack]
  · intro hm1
    have hnone : build_packet st.last_inorder_received_seq true false =
        none := by
      rw [hm1]
      simp [build_packet, packUInt32BE]
    by_cases hmem : (lookupDict st.received_packets seq).isSome <;>
      simp [hmem, hnone]

/-- A receiver state that has delivered sequence number 0 in order. -/
def c3State : Streamer := { initStreamer with last_inorder_received_seq := 0 }

/-- C3 witness: once something has been received in order, a DATA packet
elicits exactly one ACK carrying the in-order cursor. -/
theorem c3_amended_ack_policy_witness :
    ∃ ackPkt, build_packet (0 : Int) true false = some ackPkt ∧
      (listenerStep c3State pktData5).2 = [ackPkt] ∧
      parse_packet ackPkt = some (0, true, false, []) := by
  have h := (c3_amended_ack_policy c3State 5 [100] pktData5 (by decide)).1
    (by decide) (by decide)
  simpa using h

/-! ### C4: data admission -/

/-- C4 counterexample: an out-of-order DATA packet (sequence number 5 on
a fresh transport expecting 0) is stored in `received_packets`, not
dropped as the claim states; and the listener leaves
`last_inorder_received_seq` untouched rather than advancing it. -/
theorem c4_counterexample :
    parse_packet pktData5 = some (5, false, false, [100]) ∧
    initStreamer.last_inorder_received_seq + 1 ≠ 5 ∧
    (listenerStep initStreamer pktData5).1.received_packets =
      [(5, [100])] ∧
    [((5 : Int), [100])] ≠ ([] : List (Int × List Nat)) := by decide

/-- C4 amended.  The listener stores the payload of every valid DATA
packet whose sequence number is not already buffered — in-order,
out-of-order or duplicate-future alike — re-storing nothing for already
buffered sequence numbers, and it never advances
`last_inorder_received_seq` (only `recv()` does). -/
theorem c4_amended_data_admission (st : Streamer) (seq : Int)
    (data pkt : List Nat)
    (hpkt : build_packet seq false false data = some pkt) :
    (listenerStep st pkt).1.received_packets =
      (if (lookupDict st.received_packets seq).isSome then
        st.received_packets
       else st.received_packets ++ [(seq, data)]) ∧
    (listenerStep st pkt).1.last_inorder_received_seq =
      st.last_inorder_received_seq := by
  have hp := parse_build_packet _ _ _ _ _ hpkt
  rw [listenerStep_valid st pkt seq false false data hp]
  cases hbuild : build_packet st.last_inorder_received_seq true false <;>
    by_cases hmem : (lookupDict st.received_packets seq).isSome <;>
      simp [hmem, hbuild]

/-- C4 witness: the concrete out-of-order packet is buffered and the
cursor stays put. -/
theorem c4_amended_data_admission_witness :
    (listenerStep initStreamer pktData5).1.received_packets =
      [((5 : Int), [100])] ∧
    (listenerStep initStreamer pktData5).1.last_inorder_received_seq =
      -1 := by
  have h := c4_amended_data_admission initStreamer 5 [100] pktData5
    (by decide)
  simpa [initStreamer, lookupDict] using h

/-! ### C6: the FIN packet built by `close()` -/

/-- A transport that has received sequence numbers 0..3 in order. -/
def c6State : Streamer := { initStreamer with last_inorder_received_seq := 3 }

/-- C6 counterexample: `close()` builds its FIN with
`last_inorder_received_seq`, so on a transport whose cursor is 3 the FIN
carries sequence number 3, not 0 as the claim states. -/
theorem c6_counterexample :
    parse_packet ((closeFinPacket c6State).getD []) =
      some (3, false, true, []) ∧
    (3 : Int) ≠ 0 := by decide

/-- C6 amended.  The FIN packet `close()` builds carries
`last_inorder_received_seq` as its sequence-number field (whenever that
value is a valid sequence number); when nothing has been received in
order (`last_inorder_received_seq = -1`), building the FIN raises
instead. -/
theorem c6_amended_fin_encoding (st : Streamer) :
    (0 ≤ st.last_inorder_received_seq →
      st.last_inorder_received_seq < 4294967296 →
      ∃ fin, closeFinPacket st = some fin ∧
        parse_packet fin =
          some (st.last_inorder_received_seq, false, true, [])) ∧
    (st.last_inorder_received_seq = -1 → closeFinPacket st = none) := by
  constructor
  · intro h0 h1
    obtain ⟨fin, hfin⟩ : ∃ fin, closeFinPacket st = some fin :=
      ⟨_, build_packet_eq _ _ _ _ h0 h1⟩
    exact ⟨fin, hfin, parse_build_packet _ _ _ _ _ hfin⟩
  · intro hm1
    unfold closeFinPacket
    rw [hm1]
    simp [build_packet, packUInt32BE]

/-- C6 witness: with cursor 3 the FIN decodes to sequence number 3; on a
fresh transport the FIN fails to build. -/
theorem c6_amended_fin_encoding_witness :
    (∃ fin, closeFinPacket c6State = some fin ∧
      parse_packet fin = some (3, false, true, [])) ∧
    closeFinPacket initStreamer = none := by
  refine ⟨?_, (c6_amended_fin_encoding initStreamer).2 rfl⟩
  have h := (c6_amended_fin_encoding c6State).1 (by decide) (by decide)
  simpa using h

/-! ### C5: submit chunking -/

/-- Any sufficient fuel computes the same chunking. -/
lemma chunkListF_congr : ∀ (f1 f2 n : Nat) (l : List Nat), 0 < n →
    l.length ≤ f1 → l.length ≤ f2 → chunkListF f1 n l = chunkListF f2 n l := by
  intro f1
  induction f1 with
  | zero =>
      intro f2 n l _ h1 _
      obtain rfl : l = [] := List.eq_nil_of_length_eq_zero (Nat.le_zero.mp h1)
      cases f2 <;> rfl
  | succ g ih =>
      intro f2 n l hn h1 h2
      cases l with
      | nil => cases f2 <;> rfl
      | cons b bs =>
          cases f2 with
          | zero => simp at h2
          | succ g2 =>
              show (b :: bs).take n :: chunkListF g n ((b :: bs).drop n) =
                (b :: bs).take n :: chunkListF g2 n ((b :: bs).drop n)
              congr 1
              have hd1 : ((b :: bs).drop n).length ≤ g := by
                rw [List.length_drop]
                simp only [List.length_cons] at h1 ⊢
                omega
              have hd2 : ((b :: bs).drop n).length ≤ g2 := by
                rw [List.length_drop]
                simp only [List.length_cons] at h2 ⊢
                omega
              exact ih g2 n _ hn hd1 hd2

/-- Unfolding `chunkList` one slice at a time. -/
lemma chunkList_cons (n : Nat) (l : List Nat) (hn : 0 < n) (hl : l ≠ []) :
    chunkList n l = l.take n :: chunkList n (l.drop n) := by
  cases l with
  | nil => exact absurd rfl hl
  | cons b bs =>
      show (b :: bs).take n :: chunkListF bs.length n ((b :: bs).drop n) =
        (b :: bs).take n :: chunkListF ((b :: bs).drop n).length n
          ((b :: bs).drop n)
      congr 1
      exact chunkListF_congr bs.length _ n _ hn
        (by rw [List.length_drop]; simp only [List.length_cons]; omega)
        (le_refl _)

/-- The chunks concatenate back to the input. -/
lemma chunkList_flatten_aux (n : Nat) (hn : 0 < n) :
    ∀ (fuel : Nat) (l : List Nat), l.length ≤ fuel →
      (chunkList n l).flatten = l := by
  intro fuel
  induction fuel with
  | zero =>
      intro l h
      obtain rfl : l = [] := List.eq_nil_of_length_eq_zero (Nat.le_zero.mp h)
      rfl
  | succ g ih =>
      intro l h
      by_cases hl : l = []
      · subst hl; rfl
      · have hpos : 0 < l.length := List.length_pos.mpr hl
        rw [chunkList_cons n l hn hl, List.flatten_cons,
          ih (l.drop n) (by rw [List.length_drop]; omega)]
        exact List.take_append_drop n l

/-- Number of `CHUNK_SIZE`-chunks is the ceiling of `len / CHUNK_SIZE`. -/
lemma chunkList_chunk_length :
    ∀ (fuel : Nat) (l : List Nat), l.length ≤ fuel →
      (chunkList CHUNK_SIZE l).length = (l.length + 1023) / 1024 := by
  intro fuel
  induction fuel with
  | zero =>
      intro l h
      obtain rfl : l = [] := List.eq_nil_of_length_eq_zero (Nat.le_zero.mp h)
      rfl
  | succ g ih =>
      intro l h
      by_cases hl : l = []
      · subst hl; rfl
      · have hpos : 0 < l.length := List.length_pos.mpr hl
        rw [chunkList_cons CHUNK_SIZE l (by decide) hl, List.length_cons,
          ih (l.drop CHUNK_SIZE) (by rw [List.length_drop]; simp [CHUNK_SIZE]; omega)]
        rw [List.length_drop]
        show (l.length - 1024 + 1023) / 1024 + 1 = (l.length + 1023) / 1024
        omega

/-- Every chunk is nonempty and at most `CHUNK_SIZE` bytes. -/
lemma chunkList_chunk_size :
    ∀ (fuel : Nat) (l : List Nat), l.length ≤ fuel →
      ∀ c ∈ chunkList CHUNK_SIZE l, 0 < c.length ∧ c.length ≤ CHUNK_SIZE := by
  intro fuel
  induction fuel with
  | zero =>
      intro l h
      obtain rfl : l = [] := List.eq_nil_of_length_eq_zero (Nat.le_zero.mp h)
      intro c hc
      cases hc
  | succ g ih =>
      intro l h
      by_cases hl : l = []
      · subst hl; intro c hc; cases hc
      · have hpos : 0 < l.length := List.length_pos.mpr hl
        rw [chunkList_cons CHUNK_SIZE l (by decide) hl]
        intro c hc
        rcases List.mem_cons.mp hc with rfl | hc'
        · rw [List.length_take]
          simp only [CHUNK_SIZE, lt_min_iff, min_le_iff]
          omega
        · exact ih (l.drop CHUNK_SIZE)
            (by rw [List.length_drop]; simp [CHUNK_SIZE]; omega) c hc'

/-- Every chunk except possibly the last is exactly `CHUNK_SIZE` bytes. -/
lemma chunkList_chunk_full :
    ∀ (fuel : Nat) (l : List Nat), l.length ≤ fuel →
      ∀ c ∈ (chunkList CHUNK_SIZE l).dropLast, c.length = CHUNK_SIZE := by
  intro fuel
  induction fuel with
  | zero =>
      intro l h
      obtain rfl : l = [] := List.eq_nil_of_length_eq_zero (Nat.le_zero.mp h)
      intro c hc
      cases hc
  | succ g ih =>
      intro l h
      by_cases hl : l = []
      · subst hl; intro c hc; cases hc
      · have hpos : 0 < l.length := List.length_pos.mpr hl
        rw [chunkList_cons CHUNK_SIZE l (by decide) hl]
        by_cases hd : l.drop CHUNK_SIZE = []
        · rw [hd]
          intro c hc
          cases hc
        · have hrest : chunkList CHUNK_SIZE (l.drop CHUNK_SIZE) ≠ [] := by
            rw [chunkList_cons CHUNK_SIZE _ (by decide) hd]
            simp
          intro c hc
          rw [List.dropLast_cons_of_ne_nil hrest] at hc
          rcases List.mem_cons.mp hc with rfl | hc'
          · rw [List.length_take]
            have hlong : CHUNK_SIZE < l.length := by
              by_contra hle
              exact hd (List.drop_eq_nil_of_le (by omega))
            simp [CHUNK_SIZE] at hlong ⊢
            omega
          · exact ih (l.drop CHUNK_SIZE)
              (by rw [List.length_drop]; simp [CHUNK_SIZE]; omega) c hc'

/-- The sequence numbers `sendSpecQueue` assigns are consecutive from the
start value. -/
lemma sendSpecQueue_map_fst (start : Int) (cs : List (List Nat)) :
    (sendSpecQueue start cs).map Prod.fst =
      (List.range cs.length).map (fun i : Nat => start + (i : Int)) := by
  induction cs generalizing start with
  | nil => rfl
  | cons c cs ih =>
      rw [List.length_cons, List.range_succ_eq_map, List.map_cons,
        List.map_map]
      simp only [sendSpecQueue, List.map_cons]
      congr 1
      · simp
      · rw [ih (start + 1)]
        apply List.map_congr_left
        intro i _
        simp only [Function.comp_apply]
        push_cast
        ring

/-- The loop of `send` queues exactly the spec-side entries. -/
lemma sendChunks_spec : ∀ (cs : List (List Nat)) (st : Streamer),
    0 ≤ st.next_send_seq →
    st.next_send_seq + (cs.length : Int) ≤ 4294967296 →
    sendChunks st cs = some
      { st with
        chunk_buffer := st.chunk_buffer ++ sendSpecQueue st.next_send_seq cs
        next_send_seq := st.next_send_seq + cs.length } := by
  intro cs
  induction cs with
  | nil =>
      intro st h0 h1
      show some st = _
      cases st
      simp [sendSpecQueue]
  | cons c cs ih =>
      intro st h0 h1
      simp only [List.length_cons] at h1
      have hrange : st.next_send_seq < 4294967296 := by
        have hc : (0 : Int) ≤ (cs.length : Int) := Int.ofNat_nonneg _
        push_cast at h1
        omega
      obtain ⟨pkt, hpkt⟩ :
          ∃ pkt, build_packet st.next_send_seq false false c = some pkt :=
        ⟨_, build_packet_eq _ _ _ _ h0 hrange⟩
      simp only [sendChunks, hpkt]
      rw [ih _ (by simp; omega) (by simp; push_cast at h1 ⊢; omega)]
      cases st
      simp only [Option.some.injEq, Streamer.mk.injEq]
      refine ⟨?_, trivial, ?_, trivial, trivial, trivial, trivial, trivial⟩
      · simp [sendSpecQueue, hpkt, List.append_assoc]
      · simp only [List.length_cons]
        push_cast
        omega

/-- C5.  `send(B)` splits `B` into `ceil(len(B)/CHUNK_SIZE)` slices whose
concatenation is `B`, all of `CHUNK_SIZE` bytes except a shorter nonempty
final one, builds a DATA packet per slice under consecutive sequence
numbers continuing from `next_send_seq`, appends them in order to the
outgoing `chunk_buffer`, and returns (touching no other state, in
particular waiting for no acknowledgment). -/
theorem c5_submit_chunking (st : Streamer) (B : List Nat)
    (h0 : 0 ≤ st.next_send_seq)
    (h1 : st.next_send_seq + ((chunkList CHUNK_SIZE B).length : Int) ≤
      4294967296) :
    send st B = some
      { st with
        chunk_buffer := st.chunk_buffer ++
          sendSpecQueue st.next_send_seq (chunkList CHUNK_SIZE B)
        next_send_seq :=
          st.next_send_seq + (chunkList CHUNK_SIZE B).length } ∧
    (chunkList CHUNK_SIZE B).flatten = B ∧
    (chunkList CHUNK_SIZE B).length = (B.length + 1023) / 1024 ∧
    (∀ c ∈ (chunkList CHUNK_SIZE B).dropLast, c.length = CHUNK_SIZE) ∧
    (∀ c ∈ chunkList CHUNK_SIZE B, 0 < c.length ∧ c.length ≤ CHUNK_SIZE) ∧
    (sendSpecQueue st.next_send_seq (chunkList CHUNK_SIZE B)).map Prod.fst =
      (List.range (chunkList CHUNK_SIZE B).length).map
        (fun i : Nat => st.next_send_seq + (i : Int)) :=
  ⟨sendChunks_spec _ st h0 h1,
   chunkList_flatten_aux CHUNK_SIZE (by decide) B.length B (le_refl _),
   chunkList_chunk_length B.length B (le_refl _),
   chunkList_chunk_full B.length B (le_refl _),
   chunkList_chunk_size B.length B (le_refl _),
   sendSpecQueue_map_fst st.next_send_seq (chunkList CHUNK_SIZE B)⟩

/-- C5 witness: a 3-byte submit on a fresh transport queues one chunk
under sequence number 0 and advances `next_send_seq` to 1. -/
theorem c5_submit_chunking_witness :
    (send initStreamer [97, 98, 99]).map
        (fun s => (s.next_send_seq, s.chunk_buffer.map Prod.fst)) =
      some (1, [0]) ∧
    chunkList CHUNK_SIZE [97, 98, 99] = [[97, 98, 99]] := by
  have h := c5_submit_chunking initStreamer [97, 98, 99] (by decide)
    (by decide)
  rw [h.1]
  exact ⟨by decide, by decide⟩

/-! ### C7: the transmit window bound -/

/-- An in-range `getD` is a member of the list. -/
lemma getD_mem {α : Type} :
    ∀ (l : List α) (n : Nat) (d : α), n < l.length → l.getD n d ∈ l := by
  intro l
  induction l with
  | nil => intro n d h; simp at h
  | cons x xs ih =>
      intro n d h
      cases n with
      | zero => exact List.mem_cons_self x xs
      | succ n' =>
          simp only [List.getD_cons_succ]
          exact List.mem_cons_of_mem x
            (ih n' d (by simp only [List.length_cons] at h; omega))

/-- A member of a dropped suffix sits at an index at or past the cut. -/
lemma mem_drop_exists_getD {α : Type} (d : α) :
    ∀ (l : List α) (r : Nat) (e : α), e ∈ l.drop r →
      ∃ j, r ≤ j ∧ j < l.length ∧ l.getD j d = e := by
  intro l
  induction l with
  | nil => intro r e he; simp at he
  | cons x xs ih =>
      intro r e he
      cases r with
      | zero =>
          rcases List.mem_cons.mp (by simpa using he) with rfl | h'
          · exact ⟨0, Nat.le_refl 0, by simp, rfl⟩
          · obtain ⟨j, _, hjl, hje⟩ := ih 0 e (by simpa using h')
            exact ⟨j + 1, by omega,
              by simp only [List.length_cons]; omega, by simpa using hje⟩
      | succ r' =>
          obtain ⟨j, hjr, hjl, hje⟩ := ih r' e (by simpa using he)
          exact ⟨j + 1, by omega,
            by simp only [List.length_cons]; omega, by simpa using hje⟩

/-- In a queue with strictly increasing keys, keys are monotone in the
index. -/
lemma pairwise_fst_getD_le :
    ∀ (a : List (Int × List Nat)),
      a.Pairwise (fun x y => x.1 < y.1) →
      ∀ i j, i ≤ j → j < a.length →
        (a.getD i (0, [])).1 ≤ (a.getD j (0, [])).1 := by
  intro a
  induction a with
  | nil => intro _ i j _ hj; simp at hj
  | cons x xs ih =>
      intro hp i j hij hj
      rcases List.pairwise_cons.mp hp with ⟨hx, hxs⟩
      cases i with
      | zero =>
          cases j with
          | zero => exact le_refl _
          | succ j' =>
              simp only [List.getD_cons_zero, List.getD_cons_succ]
              have hjl : j' < xs.length := by
                simp only [List.length_cons] at hj; omega
              exact le_of_lt (hx _ (getD_mem xs j' (0, []) hjl))
      | succ i' =>
          cases j with
          | zero => omega
          | succ j' =>
              simp only [List.getD_cons_succ]
              exact ih hxs i' j' (by omega)
                (by simp only [List.length_cons] at hj; omega)

/-- The binary search of `bisect_right` (with any sufficient fuel) lands
within the interval and strictly past every key `≤ t`: every index at or
past the result holds a key exceeding `t`. -/
lemma bisectRightAux_spec (a : List (Int × List Nat)) (t : Int)
    (hmono : ∀ i j, i ≤ j → j < a.length →
      (a.getD i (0, [])).1 ≤ (a.getD j (0, [])).1) :
    ∀ (fuel lo hi : Nat), lo ≤ hi → hi ≤ a.length → hi - lo ≤ fuel →
      (∀ j, hi ≤ j → j < a.length → t < (a.getD j (0, [])).1) →
      lo ≤ bisectRightAux fuel a t lo hi ∧
      bisectRightAux fuel a t lo hi ≤ hi ∧
      ∀ j, bisectRightAux fuel a t lo hi ≤ j → j < a.length →
        t < (a.getD j (0, [])).1 := by
  intro fuel
  induction fuel with
  | zero =>
      intro lo hi hlohi hhi hfuel hinv
      have hπ : lo = hi := by omega
      subst hπ
      exact ⟨le_refl _, le_refl _, fun j hj hl => hinv j hj hl⟩
  | succ g ih =>
      intro lo hi hlohi hhi hfuel hinv
      have heq : bisectRightAux (g + 1) a t lo hi =
          if lo < hi then
            if t < (a.getD ((lo + hi) / 2) (0, [])).1 then
              bisectRightAux g a t lo ((lo + hi) / 2)
            else bisectRightAux g a t ((lo + hi) / 2 + 1) hi
          else lo := rfl
      rw [heq]
      by_cases hlt : lo < hi
      · rw [if_pos hlt]
        have hmidlo : lo ≤ (lo + hi) / 2 := by omega
        have hmidhi : (lo + hi) / 2 < hi := by omega
        by_cases hcmp : t < (a.getD ((lo + hi) / 2) (0, [])).1
        · rw [if_pos hcmp]
          have hinv' : ∀ j, (lo + hi) / 2 ≤ j → j < a.length →
              t < (a.getD j (0, [])).1 := fun j hj hl =>
            lt_of_lt_of_le hcmp (hmono _ j hj hl)
          obtain ⟨h1, h2, h3⟩ := ih lo ((lo + hi) / 2) (by omega)
            (by omega) (by omega) hinv'
          exact ⟨h1, by omega, h3⟩
        · rw [if_neg hcmp]
          obtain ⟨h1, h2, h3⟩ := ih ((lo + hi) / 2 + 1) hi (by omega) hhi
            (by omega) hinv
          exact ⟨by omega, h2, h3⟩
      · rw [if_neg hlt]
        exact ⟨le_refl _, hlohi, fun j hj hl => hinv j (by omega) hl⟩

/-- The refill loop fills the queue to `WINDOW_SIZE` from the front of the
buffer. -/
lemma refill_spec : ∀ (buf q : List (Int × List Nat)),
    refill q buf = (q ++ buf.take (WINDOW_SIZE - q.length),
                    buf.drop (WINDOW_SIZE - q.length)) := by
  intro buf
  induction buf with
  | nil => intro q; simp [refill]
  | cons x xs ih =>
      intro q
      show (if q.length < WINDOW_SIZE then refill (q ++ [x]) xs
            else (q, x :: xs)) = _
      by_cases hq : q.length < WINDOW_SIZE
      · rw [if_pos hq, ih (q ++ [x])]
        have hw : WINDOW_SIZE - q.length =
            (WINDOW_SIZE - (q ++ [x]).length) + 1 := by
          rw [List.length_append, List.length_singleton]
          omega
        rw [hw, List.take_succ_cons, List.drop_succ_cons]
        simp [List.append_assoc]
      · rw [if_neg hq]
        have hw : WINDOW_SIZE - q.length = 0 := by omega
        rw [hw]
        simp

/-- C7.  One `_transmit` iteration, on a state whose queues have strictly
increasing keys compatible with each other and with `max_acked_seq`, and
whose send queue respects the window: it hands at most `WINDOW_SIZE`
packets to the channel — exactly the packets of the refilled send queue —
each queued under a sequence number strictly greater than the
`max_acked_seq` read at the start of the iteration, in strictly
increasing sequence order, and leaves the send queue again within the
window. -/
theorem c7_window_bound (st : Streamer)
    (hq : st.send_queue.Pairwise (fun x y => x.1 < y.1))
    (hb : st.chunk_buffer.Pairwise (fun x y => x.1 < y.1))
    (hqb : ∀ x ∈ st.send_queue, ∀ y ∈ st.chunk_buffer, x.1 < y.1)
    (hbacked : ∀ y ∈ st.chunk_buffer, st.max_acked_seq < y.1)
    (hlen : st.send_queue.length ≤ WINDOW_SIZE) :
    (transmitStep st).2.length ≤ WINDOW_SIZE ∧
    (transmitStep st).2 = (transmitStep st).1.send_queue.map Prod.snd ∧
    (∀ e ∈ (transmitStep st).1.send_queue, st.max_acked_seq < e.1) ∧
    (transmitStep st).1.send_queue.Pairwise (fun x y => x.1 < y.1) ∧
    (transmitStep st).1.send_queue.length ≤ WINDOW_SIZE := by
  have hmono := pairwise_fst_getD_le st.send_queue hq
  obtain ⟨hr0, hrle, hrgt⟩ := bisectRightAux_spec st.send_queue
    st.max_acked_seq hmono (st.send_queue.length + 1) 0
    st.send_queue.length (Nat.zero_le _) (le_refl _) (by omega)
    (fun j hj hl => absurd hl (by omega))
  have hq1gt : ∀ e ∈ st.send_queue.drop
      (bisectRight st.send_queue st.max_acked_seq),
      st.max_acked_seq < e.1 := by
    intro e he
    obtain ⟨j, hjr, hjl, hje⟩ :=
      mem_drop_exists_getD (0, []) st.send_queue _ e he
    rw [← hje]
    exact hrgt j hjr hjl
  have hq1sub : ∀ e ∈ st.send_queue.drop
      (bisectRight st.send_queue st.max_acked_seq), e ∈ st.send_queue :=
    fun e he => (List.drop_sublist _ _).subset he
  have hstep : transmitStep st =
      ({ st with
         send_queue :=
           st.send_queue.drop (bisectRight st.send_queue st.max_acked_seq) ++
             st.chunk_buffer.take (WINDOW_SIZE -
               (st.send_queue.drop
                 (bisectRight st.send_queue st.max_acked_seq)).length)
         chunk_buffer :=
           st.chunk_buffer.drop (WINDOW_SIZE -
             (st.send_queue.drop
               (bisectRight st.send_queue st.max_acked_seq)).length) },
       (st.send_queue.drop (bisectRight st.send_queue st.max_acked_seq) ++
         st.chunk_buffer.take (WINDOW_SIZE -
           (st.send_queue.drop
             (bisectRight st.send_queue st.max_acked_seq)).length)).map
         Prod.snd) := by
    simp only [transmitStep, refill_spec]
  rw [hstep]
  have hq1len : (st.send_queue.drop
      (bisectRight st.send_queue st.max_acked_seq)).length ≤ WINDOW_SIZE := by
    rw [List.length_drop]
    omega
  have hq2len : (st.send_queue.drop
        (bisectRight st.send_queue st.max_acked_seq) ++
      st.chunk_buffer.take (WINDOW_SIZE -
        (st.send_queue.drop
          (bisectRight st.send_queue st.max_acked_seq)).length)).length ≤
      WINDOW_SIZE := by
    rw [List.length_append, List.length_take]
    omega
  refine ⟨by simpa using hq2len, rfl, ?_, ?_, hq2len⟩
  · intro e he
    rcases List.mem_append.mp he with h1 | h2
    · exact hq1gt e h1
    · exact hbacked e (List.mem_of_mem_take h2)
  · refine List.pairwise_append.mpr ⟨hq.sublist (List.drop_sublist _ _),
      hb.sublist (List.take_sublist _ _), ?_⟩
    intro x hx y hy
    exact hqb x (hq1sub x hx) y (List.mem_of_mem_take hy)

/-- A state in the middle of a transfer: two unacked packets queued, one
chunk waiting, everything up to sequence number 0 acknowledged. -/
def c7State : Streamer :=
  { initStreamer with
    send_queue := [(0, [1]), (1, [2])]
    chunk_buffer := [(2, [3])]
    max_acked_seq := 0 }

/-- C7 witness: the concrete iteration transmits the unacked packet and
the refilled chunk, within the window and in increasing order. -/
theorem c7_window_bound_witness :
    (transmitStep c7State).2.length ≤ WINDOW_SIZE ∧
    (transmitStep c7State).2 =
      (transmitStep c7State).1.send_queue.map Prod.snd ∧
    (∀ e ∈ (transmitStep c7State).1.send_queue,
      c7State.max_acked_seq < e.1) ∧
    (transmitStep c7State).1.send_queue.Pairwise (fun x y => x.1 < y.1) ∧
    (transmitStep c7State).1.send_queue.length ≤ WINDOW_SIZE :=
  c7_window_bound c7State (by decide) (by decide) (by decide) (by decide)
    (by decide)

/-! ### C10: sending the empty byte string is a no-op -/

/-- C10.  `send(b"")` queues nothing and leaves the whole state
unchanged. -/
theorem c10_send_empty_noop (st : Streamer) : send st [] = some st := rfl


